import Mathlib

/- Shallow embedding of the Huobi exchange adapter from src/api/huobi.go.

   Conventions: Go float64 fields carry no arithmetic beyond copying and one
   midpoint average, so they are modelled as rationals; Go int64 timestamps
   are modelled as Int; the fixed Go maps built in NewHuobi become association
   lists; the HTTP transport and JSON decoder are external collaborators, so
   every operation takes the decoded vendor response as an explicit argument
   (none models a transport or decode failure) and returns the number of
   network requests it issues together with its result. -/

namespace Samaritan

/-- Record : one OHLCV candlestick bar (fields as in the Go Record struct). -/
structure Record where
  Time : Int
  Open : ℚ
  High : ℚ
  Low : ℚ
  Close : ℚ
  Volume : ℚ
deriving DecidableEq

/-- MarketOrder : one price/amount level of the order book. -/
structure MarketOrder where
  Price : ℚ
  Amount : ℚ
deriving DecidableEq

/-- Ticker : best bid/ask, midpoint and the two book sides. -/
structure Ticker where
  Bids : List MarketOrder
  Asks : List MarketOrder
  Buy : ℚ
  Sell : ℚ
  Mid : ℚ
deriving DecidableEq

/-- Order : a normalized order, as populated by GetOrder / GetOrders / GetTrades. -/
structure Order where
  ID : String
  Price : ℚ
  Amount : ℚ
  DealAmount : ℚ
  OrderType : Int
  StockType : String
deriving DecidableEq

/-- Account : the normalized account snapshot populated by GetAccount. -/
structure Account where
  Total : ℚ
  Net : ℚ
  Balance : ℚ
  FrozenBalance : ℚ
  BTC : ℚ
  FrozenBTC : ℚ
  LTC : ℚ
  FrozenLTC : ℚ
  Stock : ℚ
  FrozenStock : ℚ
deriving DecidableEq

/-- stockMap from NewHuobi (src line 28): the two supported base assets. -/
def stockMap : List (String × String) := [("BTC", "1"), ("LTC", "2")]

/-- orderTypeMap from NewHuobi (src line 29): vendor order-type code to signed code. -/
def orderTypeMap : List (String × Int) := [("1", 1), ("2", -1), ("3", 2), ("4", -2)]

/-- periodMap from NewHuobi (src line 30): the seven supported timeframes. -/
def periodMap : List (String × String) :=
  [("M", "001"), ("M5", "005"), ("M15", "015"), ("M30", "030"),
   ("H", "060"), ("D", "100"), ("W", "200")]

/-- sortStrings models Go sort.Strings : lexicographic string sort
    (src line 66; the parameters here are ASCII key=value strings). -/
def sortStrings (l : List String) : List String := List.insertionSort (· ≤ ·) l

/-- signedParams models getAuthJSON's parameter canonicalization (src lines 60-67):
    append access_key, secret_key and created, sort everything, then append
    sign over the sorted list.  The hash signMd5 lives in the api package's
    utility file outside src/, so it is abstracted as an arbitrary function
    of the sorted parameter list. -/
def signedParams (signMd5 : List String → String) (accessKey secretKey : String)
    (created : Int) (params : List String) : List String :=
  let ps := params ++
    ["access_key=" ++ accessKey, "secret_key=" ++ secretKey,
     "created=" ++ toString created]
  let sorted := sortStrings ps
  sorted ++ ["sign=" ++ signMd5 sorted]

/-- AccountResp : the fields GetAccount reads from the decoded vendor JSON
    (src lines 85-99). -/
structure AccountResp where
  code : Int
  total : ℚ
  netAsset : ℚ
  availableCny : ℚ
  frozenCny : ℚ
  availableBtc : ℚ
  frozenBtc : ℚ
  availableLtc : ℚ
  frozenLtc : ℚ
deriving DecidableEq

/-- BuyResp : the fields Buy and Sell read from the decoded vendor JSON
    (the code field and the vendor-assigned id, kept as an opaque string). -/
structure BuyResp where
  code : Int
  id : String
deriving DecidableEq

/-- OrderItem : the per-order fields read by GetOrder / GetOrders / GetTrades
    (JSON keys id, order_price, order_amount, processed_amount, type). -/
structure OrderItem where
  id : String
  orderPrice : ℚ
  orderAmount : ℚ
  processedAmount : ℚ
  typ : String
deriving DecidableEq

/-- OrderInfoResp : code plus the order fields, for GetOrder (src lines 185-197). -/
structure OrderInfoResp where
  code : Int
  item : OrderItem
deriving DecidableEq

/-- OrdersResp : code plus the order array, for GetOrders / GetTrades. -/
structure OrdersResp where
  code : Int
  orders : List OrderItem
deriving DecidableEq

/-- CancelResp : code plus the result field, for CancelOrder (src lines 212-222). -/
structure CancelResp where
  code : Int
  result : String
deriving DecidableEq

/-- DepthResp : the bids and asks arrays read by GetTicker (price, amount pairs). -/
structure DepthResp where
  bids : List (ℚ × ℚ)
  asks : List (ℚ × ℚ)
deriving DecidableEq

/-- normalizeOrder : the Order struct literal shared by GetOrder, GetOrders and
    GetTrades; a vendor type code outside orderTypeMap yields the Go map
    zero value 0. -/
def normalizeOrder (stockType : String) (j : OrderItem) : Order :=
  { ID := j.id
    Price := j.orderPrice
    Amount := j.orderAmount
    DealAmount := j.processedAmount
    OrderType := (orderTypeMap.lookup j.typ).getD 0
    StockType := stockType }

/-- GetAccount (src lines 76-109): one authenticated request; a code > 0 is a
    failure returning nil; otherwise the Account is populated and the switch
    on MainStock copies the BTC or LTC balances into Stock/FrozenStock. -/
def GetAccount (mainStock : String) (resp : Option AccountResp) : Nat × Option Account :=
  match resp with
  | none => (1, none)
  | some j =>
    if 0 < j.code then (1, none)
    else
      let base : Account :=
        { Total := j.total
          Net := j.netAsset
          Balance := j.availableCny
          FrozenBalance := j.frozenCny
          BTC := j.availableBtc
          FrozenBTC := j.frozenBtc
          LTC := j.availableLtc
          FrozenLTC := j.frozenLtc
          Stock := 0
          FrozenStock := 0 }
      if mainStock = "BTC" then
        (1, some { base with Stock := base.BTC, FrozenStock := base.FrozenBTC })
      else if mainStock = "LTC" then
        (1, some { base with Stock := base.LTC, FrozenStock := base.FrozenLTC })
      else (1, some base)

/-- Buy (src lines 112-140): unrecognized stockType short-circuits with zero
    calls and the zero id ""; otherwise one authenticated request is issued
    and a code > 0 failure returns "". -/
def Buy (stockType : String) (price amount : ℚ) (resp : Option BuyResp) : Nat × String :=
  match stockMap.lookup stockType with
  | none => (0, "")
  | some _ =>
    match resp with
    | none => (1, "")
    | some j => if 0 < j.code then (1, "") else (1, j.id)

/-- Sell (src lines 143-171): same shape as Buy. -/
def Sell (stockType : String) (price amount : ℚ) (resp : Option BuyResp) : Nat × String :=
  match stockMap.lookup stockType with
  | none => (0, "")
  | some _ =>
    match resp with
    | none => (1, "")
    | some j => if 0 < j.code then (1, "") else (1, j.id)

/-- GetOrder (src lines 174-198): note there is no stockMap validation branch
    in the source; the authenticated request is always issued (an unknown
    stockType merely produces an empty coin_type parameter). -/
def GetOrder (stockType id : String) (resp : Option OrderInfoResp) : Nat × Option Order :=
  match resp with
  | none => (1, none)
  | some j =>
    if 0 < j.code then (1, none)
    else (1, some (normalizeOrder stockType j.item))

/-- CancelOrder (src lines 201-223): no validation branch in the source; the
    request is always issued; success requires code ≤ 0 and result "success". -/
def CancelOrder (order : Order) (resp : Option CancelResp) : Nat × Bool :=
  match resp with
  | none => (1, false)
  | some j =>
    if 0 < j.code then (1, false)
    else if j.result = "success" then (1, true)
    else (1, false)

/-- GetOrders (src lines 226-258): validation, then one request, then the
    order array is normalized element-wise. -/
def GetOrders (stockType : String) (resp : Option OrdersResp) : Nat × List Order :=
  match stockMap.lookup stockType with
  | none => (0, [])
  | some _ =>
    match resp with
    | none => (1, [])
    | some j =>
      if 0 < j.code then (1, [])
      else (1, j.orders.map (normalizeOrder stockType))

/-- GetTrades (src lines 261-293): same shape as GetOrders. -/
def GetTrades (stockType : String) (resp : Option OrdersResp) : Nat × List Order :=
  match stockMap.lookup stockType with
  | none => (0, [])
  | some _ =>
    match resp with
    | none => (1, [])
    | some j =>
      if 0 < j.code then (1, [])
      else (1, j.orders.map (normalizeOrder stockType))

/-- getTickerSize (src lines 301-304): the depth size defaults to 20 and a
    supplied first size is honored only when it is strictly greater than 20. -/
def getTickerSize (sizes : List Int) : Int :=
  match sizes with
  | [] => 20
  | s :: _ => if 20 < s then s else 20

/-- depthURL (src line 306): the depth request URL embeds the size chosen by
    getTickerSize. -/
def depthURL (stockType : String) (sizes : List Int) : String :=
  "http://api.huobi.com/staticmarket/depth_" ++ stockType.toLower ++ "_" ++
    toString (getTickerSize sizes) ++ ".js"

/-- GetTicker (src lines 296-341): validation, one unauthenticated request,
    then the book sides are mapped and the best bid/ask and midpoint derived;
    an empty side is a failure returning nil. -/
def GetTicker (stockType : String) (sizes : List Int) (resp : Option DepthResp) :
    Nat × Option Ticker :=
  match stockMap.lookup stockType with
  | none => (0, none)
  | some _ =>
    match resp with
    | none => (1, none)
    | some j =>
      let bids := j.bids.map (fun p => MarketOrder.mk p.1 p.2)
      let asks := j.asks.map (fun p => MarketOrder.mk p.1 p.2)
      match bids, asks with
      | b :: bs, a :: as_ =>
        (1, some { Bids := b :: bs
                   Asks := a :: as_
                   Buy := b.Price
                   Sell := a.Price
                   Mid := (b.Price + a.Price) / 2 })
      | _, _ => (1, none)

/-- timeLast (src lines 367-370): the timestamp of the window's last bar, or
    the sentinel 0 when the window is empty. -/
def timeLast (window : List Record) : Int :=
  match window.getLast? with
  | some r => r.Time
  | none => 0

/-- mergeLoop (src lines 372-396): the reconciliation walk.  The Go loop runs
    the index i from len down to 1 and reads element i-1, so it consumes the
    decoded vendor array back to front; here rs is that already-reversed
    sequence.  A bar newer than timeLast is appended to recordsNew (acc); a
    bar with equal timestamp overwrites the window's last slot (index
    len-1 — Go would fault on an empty window, which positive real
    timestamps rule out); an older bar stops the walk. -/
def mergeLoop (tL : Int) : List Record → List Record → List Record →
    List Record × List Record
  | win, acc, [] => (win, acc)
  | win, acc, r :: rest =>
    if tL < r.Time then
      mergeLoop tL win (acc ++ [r]) rest
    else if r.Time = tL then
      mergeLoop tL (win.set (win.length - 1) r) acc rest
    else
      (win, acc)

/-- getRecordsMerge (src lines 367-400): run the walk over the reversed
    vendor array, append recordsNew after the (possibly updated) window, and
    when the result is longer than size keep its first size bars — the Go
    slice records[:size]. -/
def getRecordsMerge (window incoming : List Record) (size : Nat) : List Record :=
  let tL := timeLast window
  let res := mergeLoop tL window [] incoming.reverse
  let merged := res.1 ++ res.2
  if size < merged.length then merged.take size else merged

/-- getRecordsSize (src lines 353-356): the window size defaults to 200 and
    any supplied first size is taken as-is. -/
def getRecordsSize (sizes : List Nat) : Nat :=
  match sizes with
  | [] => 200
  | s :: _ => s

/-- GetRecords (src lines 344-403): stockType then period validation (zero
    calls and nil on failure), one unauthenticated request, then the merge.
    The returned list is also the new per-period window state. -/
def GetRecords (window : List Record) (stockType period : String)
    (sizes : List Nat) (resp : Option (List Record)) : Nat × List Record :=
  match stockMap.lookup stockType with
  | none => (0, [])
  | some _ =>
    match periodMap.lookup period with
    | none => (0, [])
    | some _ =>
      match resp with
      | none => (1, [])
      | some incoming => (1, getRecordsMerge window incoming (getRecordsSize sizes))

/-- recLt : strictly increasing bar order, the window's ordering relation. -/
abbrev recLt (a b : Record) : Prop := a.Time < b.Time

/-- bar1 : a concrete bar at t=1 used in the claim examples. -/
def bar1 : Record := ⟨1, 10, 11, 9, 10, 100⟩

/-- bar2 : a concrete bar at t=2. -/
def bar2 : Record := ⟨2, 20, 21, 19, 20, 200⟩

/-- bar2x : the revised bar at t=2, with fresh OHLCV values. -/
def bar2x : Record := ⟨2, 20, 25, 18, 23, 250⟩

/-- bar3 : a concrete bar at t=3. -/
def bar3 : Record := ⟨3, 30, 31, 29, 30, 300⟩

/-- C1: the claim says a merge that overflows the cap evicts from the front
    and keeps the most recent cap-many bars, so cap 2 and window [t=1,t=2]
    merged with [t=3] should give [t=2,t=3].  The source truncates with the
    slice records[:size], which keeps the OLDEST bars: the merge yields
    [t=1,t=2] and the freshly appended t=3 bar is the one discarded.  This
    theorem evaluates the code at that failing input. -/
theorem getRecords_truncation_keeps_oldest :
    getRecordsMerge [bar1, bar2] [bar3] 2 = [bar1, bar2] ∧
    getRecordsMerge [bar1, bar2] [bar3] 2 ≠ [bar2, bar3] := by
  constructor
  · rfl
  · decide

/-- C2 counterexample: with the incoming batch literally in newest-first
    vendor order [t=3, t=2 revised, t=1], the walk (which consumes the array
    back to front) meets the older t=1 bar first and stops at once, so the
    window stays [t=1,t=2] — not the claimed [t=1, t=2 revised, t=3]. -/
theorem getRecords_newestFirst_mixed_counterexample :
    getRecordsMerge [bar1, bar2] [bar3, bar2x, bar1] 200 = [bar1, bar2] ∧
    getRecordsMerge [bar1, bar2] [bar3, bar2x, bar1] 200 ≠ [bar1, bar2x, bar3] := by
  constructor
  · rfl
  · decide

/-- C2 amended: the walk consumes the vendor array from its end, so the mixed
    newer+update example works when the batch is supplied oldest-first: given
    window [t=1,t=2] and incoming [t=1, t=2 revised, t=3], the t=3 bar is
    appended, the revised t=2 bar replaces the last bar in place, and the
    walk stops at the older t=1 bar, yielding [t=1, t=2 revised, t=3]. -/
theorem getRecords_mixed_merge_oldestFirst :
    getRecordsMerge [bar1, bar2] [bar1, bar2x, bar3] 200 = [bar1, bar2x, bar3] := by
  rfl

/-- C3: on a first call the window is empty, timeLast is the sentinel 0, and
    every bar of the newest-first batch [t=3],[t=2],[t=1] is classified newer
    and appended in chronological order, for any OHLCV payloads: the window
    becomes [t=1,t=2,t=3] with length 3 (size defaulted, no size argument). -/
theorem getRecords_append_empty_window (a b c : Record)
    (ha : a.Time = 3) (hb : b.Time = 2) (hc : c.Time = 1) :
    getRecordsMerge [] [a, b, c] (getRecordsSize []) = [c, b, a] ∧
    (getRecordsMerge [] [a, b, c] (getRecordsSize [])).length = 3 := by
  have h : getRecordsMerge [] [a, b, c] (getRecordsSize []) = [c, b, a] := by
    simp [getRecordsMerge, getRecordsSize, mergeLoop, timeLast, ha, hb, hc]
  exact ⟨h, by rw [h]; rfl⟩

/-- C3 witness: the theorem applied to the concrete bars at t=3, t=2, t=1. -/
theorem getRecords_append_empty_window_witness :
    getRecordsMerge [] [bar3, bar2, bar1] (getRecordsSize []) = [bar1, bar2, bar3] ∧
    (getRecordsMerge [] [bar3, bar2, bar1] (getRecordsSize [])).length = 3 :=
  getRecords_append_empty_window bar3 bar2 bar1 rfl rfl rfl

/-- C4 counterexample: with the incoming batch literally in newest-first
    order [t=2 revised, t=1], the back-to-front walk meets the older t=1 bar
    first and stops, so the window stays [t=1,t=2] with the ORIGINAL t=2
    values — not the claimed [t=1, t=2 revised]. -/
theorem getRecords_inplace_newestFirst_counterexample :
    getRecordsMerge [bar1, bar2] [bar2x, bar1] 200 = [bar1, bar2] ∧
    getRecordsMerge [bar1, bar2] [bar2x, bar1] 200 ≠ [bar1, bar2x] := by
  constructor
  · rfl
  · decide

/-- C4 amended: the equal-timestamp replacement does fire when the walk
    reaches the equal bar before any older bar, i.e. with the batch supplied
    oldest-first: window [t=1,t=2] merged with incoming [t=1, t=2 revised]
    yields [t=1, t=2 revised], the last bar replaced in place and the window
    length unchanged, for any OHLCV payloads. -/
theorem getRecords_inplace_update_oldestFirst (r1 r2 r2c : Record)
    (h1 : r1.Time = 1) (h2 : r2.Time = 2) (h2c : r2c.Time = 2) :
    getRecordsMerge [r1, r2] [r1, r2c] (getRecordsSize []) = [r1, r2c] ∧
    (getRecordsMerge [r1, r2] [r1, r2c] (getRecordsSize [])).length =
      ([r1, r2] : List Record).length := by
  have h : getRecordsMerge [r1, r2] [r1, r2c] (getRecordsSize []) = [r1, r2c] := by
    simp [getRecordsMerge, getRecordsSize, mergeLoop, timeLast, h1, h2, h2c]
  exact ⟨h, by rw [h]; rfl⟩

/-- C4 witness: the theorem applied to the concrete bars, with bar2x carrying
    visibly revised OHLCV values. -/
theorem getRecords_inplace_update_oldestFirst_witness :
    getRecordsMerge [bar1, bar2] [bar1, bar2x] (getRecordsSize []) = [bar1, bar2x] ∧
    (getRecordsMerge [bar1, bar2] [bar1, bar2x] (getRecordsSize [])).length =
      ([bar1, bar2] : List Record).length :=
  getRecords_inplace_update_oldestFirst bar1 bar2 bar2x rfl rfl rfl

/-- C5 counterexample: merging an empty incoming batch is NOT always a no-op:
    the truncation still runs, so a window of three bars merged with nothing
    under size argument 2 is cut to its first two bars. -/
theorem getRecords_empty_incoming_truncates :
    getRecordsMerge [bar1, bar2, bar3] [] 2 = [bar1, bar2] ∧
    getRecordsMerge [bar1, bar2, bar3] [] 2 ≠ [bar1, bar2, bar3] := by
  constructor
  · rfl
  · decide

/-- C5 amended: an empty incoming batch appends and alters nothing, so the
    window is unchanged whenever its length does not exceed the size
    argument; only the cap truncation can still change it. -/
theorem getRecords_empty_incoming_noop (window : List Record) (size : Nat)
    (h : window.length ≤ size) :
    getRecordsMerge window [] size = window := by
  simp [getRecordsMerge, mergeLoop, Nat.not_lt.mpr h]

/-- C5 witness: the amended no-op at a concrete window and size. -/
theorem getRecords_empty_incoming_noop_witness :
    ([bar1, bar2] : List Record).length ≤ 5 ∧
    getRecordsMerge [bar1, bar2] [] 5 = [bar1, bar2] :=
  ⟨by decide, getRecords_empty_incoming_noop [bar1, bar2] 5 (by decide)⟩

/-- C10: GetTicker's depth size is 20 when no size argument is given or when
    the first size argument is at most 20 (so 5 and 20 are silently ignored),
    and a first size argument strictly greater than 20 is honored; the
    request URL embeds exactly that chosen size. -/
theorem getTicker_depth_size_policy :
    getTickerSize [] = 20 ∧
    (∀ (s : Int) (rest : List Int), s ≤ 20 → getTickerSize (s :: rest) = 20) ∧
    (∀ (s : Int) (rest : List Int), 20 < s → getTickerSize (s :: rest) = s) ∧
    getTickerSize [5] = 20 ∧
    getTickerSize [20] = 20 ∧
    depthURL "BTC" [5] = depthURL "BTC" [] ∧
    depthURL "BTC" [20] = depthURL "BTC" [] := by
  refine ⟨rfl, ?_, ?_, rfl, rfl, rfl, rfl⟩
  · intro s rest hs
    simp [getTickerSize, Int.not_lt.mpr hs]
  · intro s rest hs
    simp [getTickerSize, hs]

/-- C10 witness: the two quantified conjuncts applied at concrete sizes. -/
theorem getTicker_depth_size_policy_witness :
    getTickerSize [7, 50] = 20 ∧ getTickerSize [25] = 25 :=
  ⟨getTicker_depth_size_policy.2.1 7 [50] (by decide),
   getTicker_depth_size_policy.2.2.1 25 [] (by decide)⟩

/-- C6 counterexample: GetOrder has no symbol validation in the source, so
    called with the unsupported symbol "ETH" it still issues its network
    request (one call, not the claimed zero); CancelOrder likewise always
    issues its request. -/
theorem getOrder_no_validation_counterexample :
    (stockMap.lookup "ETH") = none ∧
    (GetOrder "ETH" "42" none).1 = 1 ∧
    (CancelOrder ⟨"42", 0, 0, 0, 1, "ETH"⟩ none).1 = 1 := by
  refine ⟨rfl, rfl, rfl⟩

/-- C6 amended: Buy, Sell, GetOrders, GetTrades, GetTicker and GetRecords
    short-circuit on an unsupported symbol with zero network calls and the
    operation's zero value, GetRecords does the same for an unsupported
    timeframe whatever the symbol, but GetOrder and CancelOrder perform no
    validation and always issue their network request. -/
theorem validation_short_circuit
    (stockType stockType2 period oid : String) (price amount : ℚ)
    (window : List Record) (sizesR : List Nat) (sizesT : List Int)
    (rBuy rSell : Option BuyResp) (rOrd : Option OrderInfoResp)
    (rOrders rTrades : Option OrdersResp) (rTicker : Option DepthResp)
    (rRecords : Option (List Record)) (rCancel : Option CancelResp) (ord : Order)
    (hs : stockMap.lookup stockType = none)
    (hp : periodMap.lookup period = none) :
    Buy stockType price amount rBuy = (0, "") ∧
    Sell stockType price amount rSell = (0, "") ∧
    GetOrders stockType rOrders = (0, []) ∧
    GetTrades stockType rTrades = (0, []) ∧
    GetTicker stockType sizesT rTicker = (0, none) ∧
    GetRecords window stockType period sizesR rRecords = (0, []) ∧
    GetRecords window stockType2 period sizesR rRecords = (0, []) ∧
    (GetOrder stockType oid rOrd).1 = 1 ∧
    (CancelOrder ord rCancel).1 = 1 := by
  refine ⟨?_, ?_, ?_, ?_, ?_, ?_, ?_, ?_, ?_⟩
  · simp [Buy, hs]
  · simp [Sell, hs]
  · simp [GetOrders, hs]
  · simp [GetTrades, hs]
  · simp [GetTicker, hs]
  · simp [GetRecords, hs]
  · cases h2 : stockMap.lookup stockType2 with
    | none => simp [GetRecords, h2]
    | some v => simp [GetRecords, h2, hp]
  · cases rOrd with
    | none => rfl
    | some j => by_cases h : 0 < j.code <;> simp [GetOrder, h]
  · cases rCancel with
    | none => rfl
    | some j =>
      by_cases h : 0 < j.code
      · simp [CancelOrder, h]
      · by_cases h2 : j.result = "success" <;> simp [CancelOrder, h, h2]

/-- C6 amended witness: the amended statement at the unsupported symbol "ETH"
    and unsupported timeframe "M10". -/
theorem validation_short_circuit_witness :
    Buy "ETH" 1 2 none = (0, "") ∧
    Sell "ETH" 1 2 none = (0, "") ∧
    GetOrders "ETH" none = (0, []) ∧
    GetTrades "ETH" none = (0, []) ∧
    GetTicker "ETH" [] none = (0, none) ∧
    GetRecords [] "ETH" "M10" [] none = (0, []) ∧
    GetRecords [] "BTC" "M10" [] none = (0, []) ∧
    (GetOrder "ETH" "42" none).1 = 1 ∧
    (CancelOrder ⟨"43", 0, 0, 0, 1, "BTC"⟩ none).1 = 1 :=
  validation_short_circuit "ETH" "BTC" "M10" "42" 1 2 [] [] [] none none none
    none none none none none ⟨"43", 0, 0, 0, 1, "BTC"⟩ (by decide) (by decide)

/-- C7 counterexample: the source only treats a code STRICTLY GREATER than
    zero as failure, so a vendor response with the non-zero code -1 is
    accepted: GetAccount populates and returns a full Account (with the BTC
    balances copied into Stock/FrozenStock) and Buy returns the vendor id
    instead of the zero value "". -/
theorem negative_code_accepted_counterexample :
    (GetAccount "BTC" (some ⟨-1, 1, 2, 3, 4, 5, 6, 7, 8⟩)).2 =
      some ⟨1, 2, 3, 4, 5, 6, 7, 8, 5, 6⟩ ∧
    (-1 : Int) ≠ 0 ∧
    Buy "BTC" 1 1 (some ⟨-1, "oid"⟩) = (1, "oid") ∧
    "oid" ≠ "" := by
  refine ⟨rfl, by decide, rfl, by decide⟩

/-- C7 amended: a vendor response whose code is strictly positive is a hard
    failure for every operation that inspects the code — GetAccount, Buy,
    Sell, GetOrder, CancelOrder, GetOrders and GetTrades all return the
    operation's zero value and populate nothing, whatever the other response
    fields hold; codes that are zero or negative are treated as success. -/
theorem positive_code_hard_failure
    (mainStock stockType oid oid2 typ res : String) (price amount : ℚ)
    (c : Int) (hc : 0 < c)
    (t n bal fbal bt fbt lt2 flt oP oA pA : ℚ)
    (items : List OrderItem) (ord : Order) :
    (GetAccount mainStock (some ⟨c, t, n, bal, fbal, bt, fbt, lt2, flt⟩)).2 = none ∧
    (Buy stockType price amount (some ⟨c, oid⟩)).2 = "" ∧
    (Sell stockType price amount (some ⟨c, oid⟩)).2 = "" ∧
    (GetOrder stockType oid (some ⟨c, ⟨oid2, oP, oA, pA, typ⟩⟩)).2 = none ∧
    (CancelOrder ord (some ⟨c, res⟩)).2 = false ∧
    (GetOrders stockType (some ⟨c, items⟩)).2 = [] ∧
    (GetTrades stockType (some ⟨c, items⟩)).2 = [] := by
  refine ⟨?_, ?_, ?_, ?_, ?_, ?_, ?_⟩
  · simp [GetAccount, hc]
  · cases h : stockMap.lookup stockType with
    | none => simp [Buy, h]
    | some v => simp [Buy, h, hc]
  · cases h : stockMap.lookup stockType with
    | none => simp [Sell, h]
    | some v => simp [Sell, h, hc]
  · simp [GetOrder, hc]
  · simp [CancelOrder, hc]
  · cases h : stockMap.lookup stockType with
    | none => simp [GetOrders, h]
    | some v => simp [GetOrders, h, hc]
  · cases h : stockMap.lookup stockType with
    | none => simp [GetTrades, h]
    | some v => simp [GetTrades, h, hc]

/-- C7 amended witness: the amended statement at the concrete positive
    code 7. -/
theorem positive_code_hard_failure_witness :
    (GetAccount "BTC" (some ⟨7, 1, 2, 3, 4, 5, 6, 7, 8⟩)).2 = none ∧
    (Buy "BTC" 1 1 (some ⟨7, "oid"⟩)).2 = "" ∧
    (Sell "BTC" 1 1 (some ⟨7, "oid"⟩)).2 = "" ∧
    (GetOrder "BTC" "42" (some ⟨7, ⟨"42", 1, 2, 3, "1"⟩⟩)).2 = none ∧
    (CancelOrder ⟨"42", 0, 0, 0, 1, "BTC"⟩ (some ⟨7, "success"⟩)).2 = false ∧
    (GetOrders "BTC" (some ⟨7, []⟩)).2 = [] ∧
    (GetTrades "BTC" (some ⟨7, []⟩)).2 = [] :=
  positive_code_hard_failure "BTC" "BTC" "42" "42" "1" "success" 1 1 7
    (by decide) 1 2 3 4 5 6 7 8 1 2 3 [] ⟨"42", 0, 0, 0, 1, "BTC"⟩

/-- C8: the signer appends access_key, secret_key and the created timestamp
    to the unsigned parameters, sorts the ENTIRE parameter set
    lexicographically, hashes the sorted list, and appends sign=<signature>
    as the final parameter; and two signing runs with identical unsigned
    parameters, credentials and created timestamp produce identical signed
    parameter lists. -/
theorem signedParams_canonical_deterministic
    (signMd5 : List String → String) (accessKey secretKey : String)
    (created : Int) (params params2 : List String) (hsame : params2 = params) :
    (∃ sorted : List String,
      List.Perm sorted
        (params ++ ["access_key=" ++ accessKey, "secret_key=" ++ secretKey,
                    "created=" ++ toString created]) ∧
      List.Sorted (fun a b : String => a ≤ b) sorted ∧
      signedParams signMd5 accessKey secretKey created params =
        sorted ++ ["sign=" ++ signMd5 sorted]) ∧
    signedParams signMd5 accessKey secretKey created params2 =
      signedParams signMd5 accessKey secretKey created params := by
  refine ⟨⟨sortStrings (params ++
    ["access_key=" ++ accessKey, "secret_key=" ++ secretKey,
     "created=" ++ toString created]), ?_, ?_, rfl⟩, by rw [hsame]⟩
  · exact List.perm_insertionSort _ _
  · exact List.sorted_insertionSort _ _

/-- C8 witness: the canonicalization statement at a concrete hash function,
    credential pair, timestamp and parameter list. -/
theorem signedParams_canonical_deterministic_witness :
    (∃ sorted : List String,
      List.Perm sorted
        (["method=get_account_info"] ++
          ["access_key=" ++ "ak", "secret_key=" ++ "sk",
           "created=" ++ toString (7 : Int)]) ∧
      List.Sorted (fun a b : String => a ≤ b) sorted ∧
      signedParams (fun _ => "h") "ak" "sk" 7 ["method=get_account_info"] =
        sorted ++ ["sign=" ++ (fun _ : List String => "h") sorted]) ∧
    signedParams (fun _ => "h") "ak" "sk" 7 ["method=get_account_info"] =
      signedParams (fun _ => "h") "ak" "sk" 7 ["method=get_account_info"] :=
  signedParams_canonical_deterministic (fun _ => "h") "ak" "sk" 7
    ["method=get_account_info"] ["method=get_account_info"] rfl

/-- setting the last slot of a nonempty list, the Go assignment
    records[len-1] = r, is dropLast followed by the new bar. -/
lemma set_last_eq_dropLast_append (win : List Record) (r : Record) (h : win ≠ []) :
    win.set (win.length - 1) r = win.dropLast ++ [r] := by
  induction win with
  | nil => exact absurd rfl h
  | cons a t ih =>
    cases t with
    | nil => rfl
    | cons b t' =>
      have ht : (b :: t') ≠ [] := by simp
      have hlen : (a :: b :: t').length - 1 = ((b :: t').length - 1) + 1 := by
        simp
      rw [hlen, List.set_cons_succ, ih ht]
      rfl

/-- every bar of a strictly increasing window is no newer than the window's
    last bar. -/
lemma time_le_timeLast :
    ∀ l : List Record, l.Pairwise recLt → ∀ a ∈ l, a.Time ≤ timeLast l := by
  intro l
  induction l with
  | nil => intro _ a ha; simp at ha
  | cons x t ih =>
    intro hp a ha
    cases t with
    | nil =>
      simp only [List.mem_singleton] at ha
      simp [timeLast, ha]
    | cons y t' =>
      have hx : x.Time < y.Time := (List.pairwise_cons.mp hp).1 y (by simp)
      have htail := (List.pairwise_cons.mp hp).2
      have hTL : timeLast (x :: y :: t') = timeLast (y :: t') := by
        simp [timeLast]
      rw [hTL]
      rcases List.mem_cons.mp ha with h | h
      · subst h
        have hy := ih htail y (by simp)
        omega
      · exact ih htail a h

/-- invariant of the reconciliation walk: if window ++ accumulator is
    strictly increasing, the window sits at or below tL, the accumulator
    sits above tL, and the remaining input is strictly increasing and above
    everything already accumulated, then the walk preserves all three
    facts. -/
lemma mergeLoop_invariant (tL : Int) :
    ∀ rs win acc : List Record,
      (win ++ acc).Pairwise recLt →
      (∀ a ∈ win, a.Time ≤ tL) →
      (∀ a ∈ acc, tL < a.Time) →
      rs.Pairwise recLt →
      (∀ a ∈ acc, ∀ b ∈ rs, a.Time < b.Time) →
      ((mergeLoop tL win acc rs).1 ++ (mergeLoop tL win acc rs).2).Pairwise recLt ∧
      (∀ a ∈ (mergeLoop tL win acc rs).1, a.Time ≤ tL) ∧
      (∀ a ∈ (mergeLoop tL win acc rs).2, tL < a.Time) := by
  intro rs
  induction rs with
  | nil =>
    intro win acc h1 h2 h3 _ _
    exact ⟨h1, h2, h3⟩
  | cons r rest ih =>
    intro win acc h1 h2 h3 h4 h5
    have hrest : rest.Pairwise recLt := (List.pairwise_cons.mp h4).2
    have hr_rest : ∀ b ∈ rest, r.Time < b.Time :=
      fun b hb => (List.pairwise_cons.mp h4).1 b hb
    by_cases hgt : tL < r.Time
    · have hstep : mergeLoop tL win acc (r :: rest) =
          mergeLoop tL win (acc ++ [r]) rest := by
        simp [mergeLoop, hgt]
      rw [hstep]
      apply ih
      · rw [← List.append_assoc, List.pairwise_append]
        refine ⟨h1, by simp, ?_⟩
        intro a ha b hb
        simp only [List.mem_singleton] at hb
        rw [hb]
        rcases List.mem_append.mp ha with h | h
        · exact lt_of_le_of_lt (h2 a h) hgt
        · exact h5 a h r (List.mem_cons_self _ _)
      · exact h2
      · intro a ha
        rcases List.mem_append.mp ha with h | h
        · exact h3 a h
        · simp only [List.mem_singleton] at h
          subst h
          exact hgt
      · exact hrest
      · intro a ha b hb
        rcases List.mem_append.mp ha with h | h
        · exact h5 a h b (List.mem_cons_of_mem _ hb)
        · simp only [List.mem_singleton] at h
          subst h
          exact hr_rest b hb
    · by_cases heq : r.Time = tL
      · have hstep : mergeLoop tL win acc (r :: rest) =
            mergeLoop tL (win.set (win.length - 1) r) acc rest := by
          simp [mergeLoop, hgt, heq]
        rw [hstep]
        by_cases hwin : win = []
        · subst hwin
          apply ih
          · simpa using h1
          · intro a ha
            simp at ha
          · exact h3
          · exact hrest
          · intro a ha b hb
            exact h5 a ha b (List.mem_cons_of_mem _ hb)
        · have hset := set_last_eq_dropLast_append win r hwin
          rw [hset]
          have hwin_eq : win.dropLast ++ [win.getLast hwin] = win :=
            List.dropLast_append_getLast hwin
          have hL_le : (win.getLast hwin).Time ≤ tL :=
            h2 _ (List.getLast_mem hwin)
          have h1' : ((win.dropLast ++ [win.getLast hwin]) ++ acc).Pairwise recLt := by
            rw [hwin_eq]
            exact h1
          rw [List.pairwise_append] at h1'
          have hPd : (win.dropLast ++ [win.getLast hwin]).Pairwise recLt := h1'.1
          have hcross : ∀ a ∈ win.dropLast ++ [win.getLast hwin], ∀ b ∈ acc,
              a.Time < b.Time := h1'.2.2
          rw [List.pairwise_append] at hPd
          have hdrop_lt : ∀ a ∈ win.dropLast, a.Time < (win.getLast hwin).Time := by
            intro a ha
            exact hPd.2.2 a ha _ (by simp)
          apply ih
          · rw [List.pairwise_append]
            refine ⟨?_, h1'.2.1, ?_⟩
            · rw [List.pairwise_append]
              refine ⟨hPd.1, by simp, ?_⟩
              intro a ha b hb
              simp only [List.mem_singleton] at hb
              subst hb
              have := hdrop_lt a ha
              omega
            · intro a ha b hb
              rcases List.mem_append.mp ha with h | h
              · exact hcross a (List.mem_append_left _ h) b hb
              · simp only [List.mem_singleton] at h
                subst h
                have := h3 b hb
                omega
          · intro a ha
            rcases List.mem_append.mp ha with h | h
            · exact h2 a ((List.dropLast_sublist win).subset h)
            · simp only [List.mem_singleton] at h
              subst h
              omega
          · exact h3
          · exact hrest
          · intro a ha b hb
            exact h5 a ha b (List.mem_cons_of_mem _ hb)
      · have hstep : mergeLoop tL win acc (r :: rest) = (win, acc) := by
          simp [mergeLoop, hgt, heq]
        rw [hstep]
        exact ⟨h1, h2, h3⟩

/-- C9: under the vendor assumptions the spec itself states (bars arrive
    newest-first with strictly decreasing, positive timestamps) every
    GetRecords merge preserves the per-timeframe window invariant: the
    window's length never exceeds the call's size argument, its bars are
    strictly increasing in timestamp (hence no duplicate timestamps), and
    every bar is no newer than the window's last bar, so the most recent
    element carries the greatest timestamp. -/
theorem getRecords_window_invariant (window incoming : List Record) (size : Nat)
    (hwin : window.Pairwise recLt)
    (hinc : incoming.Pairwise (fun a b => b.Time < a.Time))
    (hpos : ∀ r ∈ incoming, 0 < r.Time) :
    (getRecordsMerge window incoming size).length ≤ size ∧
    (getRecordsMerge window incoming size).Pairwise recLt ∧
    ∀ r ∈ getRecordsMerge window incoming size,
      r.Time ≤ timeLast (getRecordsMerge window incoming size) := by
  have hrev : incoming.reverse.Pairwise recLt := by
    rw [List.pairwise_reverse]
    exact hinc
  have h2 : ∀ a ∈ window, a.Time ≤ timeLast window := time_le_timeLast window hwin
  have h1 : (window ++ ([] : List Record)).Pairwise recLt := by simpa using hwin
  have hmain := mergeLoop_invariant (timeLast window) incoming.reverse window []
    h1 h2 (by intro a ha; simp at ha) hrev (by intro a ha; simp at ha)
  have hsorted : ((mergeLoop (timeLast window) window [] incoming.reverse).1 ++
      (mergeLoop (timeLast window) window [] incoming.reverse).2).Pairwise recLt :=
    hmain.1
  have hdef : getRecordsMerge window incoming size =
      if size < ((mergeLoop (timeLast window) window [] incoming.reverse).1 ++
          (mergeLoop (timeLast window) window [] incoming.reverse).2).length then
        ((mergeLoop (timeLast window) window [] incoming.reverse).1 ++
          (mergeLoop (timeLast window) window [] incoming.reverse).2).take size
      else
        (mergeLoop (timeLast window) window [] incoming.reverse).1 ++
          (mergeLoop (timeLast window) window [] incoming.reverse).2 := rfl
  rw [hdef]
  by_cases hlen : size < ((mergeLoop (timeLast window) window [] incoming.reverse).1 ++
      (mergeLoop (timeLast window) window [] incoming.reverse).2).length
  · rw [if_pos hlen]
    have hs : (((mergeLoop (timeLast window) window [] incoming.reverse).1 ++
        (mergeLoop (timeLast window) window [] incoming.reverse).2).take size).Pairwise
        recLt :=
      List.Pairwise.sublist (List.take_sublist _ _) hsorted
    refine ⟨?_, hs, time_le_timeLast _ hs⟩
    simp [List.length_take]
  · rw [if_neg hlen]
    exact ⟨Nat.le_of_not_lt hlen, hsorted, time_le_timeLast _ hsorted⟩

/-- C9 witness: the invariant at a concrete window and a concrete
    newest-first batch. -/
theorem getRecords_window_invariant_witness :
    (getRecordsMerge [bar1] [bar3, bar2] 5).length ≤ 5 ∧
    (getRecordsMerge [bar1] [bar3, bar2] 5).Pairwise recLt ∧
    ∀ r ∈ getRecordsMerge [bar1] [bar3, bar2] 5,
      r.Time ≤ timeLast (getRecordsMerge [bar1] [bar3, bar2] 5) :=
  getRecords_window_invariant [bar1] [bar3, bar2] 5 (by decide) (by decide)
    (by decide)

end Samaritan
